import Mathlib

/-!
Shallow embedding of the scheduling core of `wangchen615/kubernetes-simulator`
(file `kubesim/kubesim.go`): the pod queue, the filter/scorer plugin pipeline,
node capacity accounting, and the tick-driven main loop, together with the
theorems that settle the specification claims.

Machine integers of the Go code are modelled as `Int`/`Nat` (scores and weights
are Go `int`; resource quantities are non-negative). Go maps keyed by strings
are modelled as association lists; `map` iteration order, which Go leaves
unspecified, shows up as the order of the association list, and order-sensitive
statements are proved for arbitrary entry orders.

The packages `kubesim/node` (the `Node` type with `CreatePod`) and the pod
queue (`podQueue` with `append`/`pop`) are not part of the provided sources;
they are modelled from the spec where indicated.
-/

namespace KubeSimModel

/-- Lookup in an association list, defaulting to 0 (Go map read of a missing
key yields the zero value). -/
def lookupD (m : List (String × Nat)) (k : String) : Nat :=
  match m.find? (fun p => p.1 == k) with
  | some p => p.2
  | none => 0

/-- Add `q` to the entry of key `k` (Go `m[k] += q` on a `map[string]`-like
structure): the first entry with key `k` is bumped; a missing key is inserted
at the tail with value `q`. -/
def bumpAlloc (m : List (String × Nat)) (k : String) (q : Nat) : List (String × Nat) :=
  match m with
  | [] => [(k, q)]
  | (k', v) :: rest => if k' == k then (k', v + q) :: rest else (k', v) :: bumpAlloc rest k q

/-- Total quantity requested for kind `k` in a request list. -/
def reqSum : List (String × Nat) → String → Nat
  | [], _ => 0
  | r :: rs, k => (if r.1 = k then r.2 else 0) + reqSum rs k

/-- Virtual clock (seconds since an arbitrary origin); `clock.Clock` is an
abstract timestamp with addition, which is all the scheduling core uses. -/
abbrev Clock := Int

/-- A workload (`v1.Pod`): name, resource requests, and the assigned-node
field `Spec.NodeName` (empty string = unset, as in Kubernetes). -/
structure Pod where
  name : String
  requests : List (String × Nat)
  nodeName : String
deriving DecidableEq, Repr

/-- The `v1.Node` snapshot handed to plugins (`node.ToV1()`): name plus the
capacity view. -/
structure V1Node where
  name : String
  capacity : List (String × Nat)
deriving DecidableEq, Repr

/-- Registry entry (`node.Node`): capacity and current allocation.
Modelled from the spec: the `kubesim/node` package is not in the provided
sources; per spec section 3, a node has a unique name, a capacity map and an
allocation map with `allocation[kind] ≤ capacity[kind]`. -/
structure NodeState where
  name : String
  capacity : List (String × Nat)
  allocation : List (String × Nat)
deriving DecidableEq, Repr

/-- Errors surfaced by the scheduling core. `pluginErr` stands for any error
value returned by a Submitter/Filter/Scorer plugin; `notFound` is
`strongerrors.NotFound(node %q not found)` from `scheduleOneScore`;
`capacityExceeded` is the bind rejection of `CreatePod`. -/
inductive SimError where
  | pluginErr (msg : String)
  | notFound (node : String)
  | capacityExceeded
deriving DecidableEq, Repr

/-- One entry of the score list a scorer returns (`api.NodeScore`): host name
and score. -/
structure NodeScore where
  host : String
  score : Int
deriving DecidableEq, Repr

/-- Filter plugin type (`api.Filter`): `Filter(pod, node) (bool, error)`. -/
abbrev Filter := Pod → V1Node → Except SimError Bool

/-- Scorer plugin type (`api.Scorer`): `Score(pod, nodes) ([]NodeScore, weight int, error)`. -/
abbrev Scorer := Pod → List V1Node → Except SimError (List NodeScore × Int)

/-- Submitter plugin type (`api.Submitter`): `Submit(clock, nodes) ([]*v1.Pod, error)`. -/
abbrev Submitter := Clock → List V1Node → Except SimError (List Pod)

/-- The simulator state (`KubeSim`): node registry, pod queue, and the three
registered plugin lists (registration order preserved). -/
structure KubeSim where
  nodes : List NodeState
  pods : List Pod
  submitters : List Submitter
  filters : List Filter
  scorers : List Scorer

/-- Snapshot of a registry entry (`node.ToV1()`). -/
def toV1 (n : NodeState) : V1Node :=
  { name := n.name, capacity := n.capacity }

/-- Modelled from the spec: the pod queue's `pop` (`podQueue` is not in the
provided sources). Spec section 4.2: `pop_front` removes and returns the head,
or signals an explicit empty condition (`errEmptyPodQueue`, here `none`). -/
def popQueue : List Pod → Option (Pod × List Pod)
  | [] => none
  | p :: ps => some (p, ps)

/-- Modelled from the spec: `node.Node.CreatePod(clock, pod)` (the
`kubesim/node` package is not in the provided sources). Spec section 4.3:
bind atomically checks `allocation[kind] + request[kind] ≤ capacity[kind]`
for every requested kind; if so it increments the allocation by the request
and succeeds; otherwise it fails without mutation. -/
def createPod (n : NodeState) (_clk : Clock) (pod : Pod) : Except SimError NodeState :=
  if pod.requests.all (fun r => decide (lookupD n.allocation r.1 + r.2 ≤ lookupD n.capacity r.1)) then
    .ok { n with allocation := pod.requests.foldl (fun m r => bumpAlloc m r.1 r.2) n.allocation }
  else
    .error .capacityExceeded

/-- Inner loop of `scheduleOneFilter` (kubesim.go:172-181): one filter over the
node list, collecting `nodesOk` and aborting on the first plugin error. -/
def filterOnce (f : Filter) (pod : Pod) (nodes : List V1Node) : Except SimError (List V1Node) :=
  match nodes with
  | [] => .ok []
  | n :: ns =>
    match f pod n with
    | .error e => .error e
    | .ok true =>
      match filterOnce f pod ns with
      | .error e => .error e
      | .ok rest => .ok (n :: rest)
    | .ok false => filterOnce f pod ns

/-- Filter pipeline `scheduleOneFilter` (kubesim.go:168-188): filters applied in registration
order, each narrowing the running node list (`nodes = nodesOk`). The Go
function returns only the error; the final list is a local variable — the
caller's slice is unchanged. Here the computed list is returned so that what
the function computes (and the caller drops) can be stated. -/
def scheduleOneFilter (filters : List Filter) (pod : Pod) (nodes : List V1Node) :
    Except SimError (List V1Node) :=
  match filters with
  | [] => .ok nodes
  | f :: fs =>
    match filterOnce f pod nodes with
    | .error e => .error e
    | .ok nodesOk => scheduleOneFilter fs pod nodesOk

/-- Accumulation step `nodeScore[host] += delta` (kubesim.go:202) on the association-list model
of the Go map. -/
def addScore (m : List (String × Int)) (host : String) (delta : Int) : List (String × Int) :=
  match m with
  | [] => [(host, delta)]
  | (h, s) :: rest => if h == host then (h, s + delta) :: rest else (h, s) :: addScore rest host delta

/-- Scorer loop of `scheduleOneScore` (kubesim.go:193-206): each scorer's
scores are accumulated into the running map with weight applied; a scorer
error aborts. -/
def runScorers (scorers : List Scorer) (pod : Pod) (nodes : List V1Node)
    (acc : List (String × Int)) : Except SimError (List (String × Int)) :=
  match scorers with
  | [] => .ok acc
  | s :: ss =>
    match s pod nodes with
    | .error e => .error e
    | .ok (scores, weight) =>
      runScorers ss pod nodes
        (scores.foldl (fun m sc => addScore m sc.host (sc.score * weight)) acc)

/-- One step of the selection loop (kubesim.go:211-214): an entry replaces the
running maximum only when strictly greater. -/
def selStep (acc e : String × Int) : String × Int :=
  if e.2 > acc.2 then (e.1, e.2) else acc

/-- Selection loop of `scheduleOneScore` (kubesim.go:208-215): running maximum
initialized to `scoreMax = -1`, `scoreMaxNode = ""`. -/
def selectMax (entries : List (String × Int)) : String × Int :=
  entries.foldl selStep ("", -1)

/-- Registry lookup by name (`k.nodes[scoreMaxNode]` on the name-keyed map). -/
def findNode (nodes : List NodeState) (name : String) : Option NodeState :=
  nodes.find? (fun n => n.name == name)

/-- Scoring stage `scheduleOneScore` (kubesim.go:190-225): run all scorers, pick the entry
with the strictly greatest accumulated total, look the winner up in the
registry (NotFound error if absent), and set the pod's `Spec.NodeName`. -/
def scheduleOneScore (k : KubeSim) (pod : Pod) (nodes : List V1Node) :
    Except SimError (NodeState × Pod) :=
  match runScorers k.scorers pod nodes [] with
  | .error e => .error e
  | .ok nodeScore =>
    let sel := selectMax nodeScore
    match findNode k.nodes sel.1 with
    | none => .error (.notFound sel.1)
    | some n => .ok (n, { pod with nodeName := sel.1 })

/-- Replace the registry entry carrying `n.name` (the Go code mutates the
node through the `*node.Node` pointer held in the name-keyed map). -/
def updateNode (ns : List NodeState) (n : NodeState) : List NodeState :=
  ns.map (fun m => if m.name == n.name then n else m)

/-- Scheduling attempt `scheduleOne` (kubesim.go:143-166): pop one pod (empty queue returns nil),
run the filters — only the error is consulted, the filtered list is a local of
`scheduleOneFilter` and the original `nodes` goes on to the scorers, exactly as
in the Go code — then score, then `CreatePod` on the selected node; every error
is returned to the caller. -/
def scheduleOne (k : KubeSim) (clk : Clock) (nodes : List V1Node) : Except SimError KubeSim :=
  match popQueue k.pods with
  | none => .ok k
  | some (pod, rest) =>
    match scheduleOneFilter k.filters pod nodes with
    | .error e => .error e
    | .ok _nodesFiltered =>
      match scheduleOneScore k pod nodes with
      | .error e => .error e
      | .ok (nodeSel, pod') =>
        match createPod nodeSel clk pod' with
        | .error e => .error e
        | .ok nodeSel' => .ok { k with pods := rest, nodes := updateNode k.nodes nodeSel' }

/-- Submission loop `submit` (kubesim.go:126-139): run each submitter in registration order,
appending every produced pod to the queue; the first submitter error stops the
loop, with the pods appended so far kept in the queue. Returns the queue and
the error, mirroring that the Go queue mutation survives the early return. -/
def submit (subs : List Submitter) (clk : Clock) (nodes : List V1Node) (q : List Pod) :
    List Pod × Option SimError :=
  match subs with
  | [] => (q, none)
  | s :: ss =>
    match s clk nodes with
    | .error e => (q, some e)
    | .ok pods => submit ss clk nodes (q ++ pods)

/-- One tick of `Run` (kubesim.go:105-121): snapshot the registry, run the
submitters (any error returns), then `scheduleOne` (any error returns). -/
def runTick (k : KubeSim) (clk : Clock) : Except SimError KubeSim :=
  let nodes := k.nodes.map toV1
  match submit k.submitters clk nodes k.pods with
  | (_, some e) => .error e
  | (q, none) => scheduleOne { k with pods := q } clk nodes

/-- The `Run` loop (kubesim.go:101-123) over a finite schedule of tick clocks:
each tick that returns an error terminates the run with that error; otherwise
the loop proceeds to the next tick. -/
def runTicks (k : KubeSim) : List Clock → Except SimError KubeSim
  | [] => .ok k
  | c :: cs =>
    match runTick k c with
    | .error e => .error e
    | .ok k' => runTicks k' cs

/-! ### Call-trace instrumentation

The spec makes claims about which plugin calls happen and in what order
(`no later filter call is made`, `every submitter is invoked once`, an empty
tick `performs no filter or scorer call`). The following definitions mirror
the control flow of the functions above and record the calls they perform;
agreement lemmas connect each trace to its function. -/

/-- The nodes on which `filterOnce f pod nodes` calls `f` (the Go inner loop
stops at the first erroring node). -/
def filterOnceCalls (f : Filter) (pod : Pod) (nodes : List V1Node) : List V1Node :=
  match nodes with
  | [] => []
  | n :: ns =>
    match f pod n with
    | .error _ => [n]
    | .ok _ => n :: filterOnceCalls f pod ns

/-- The `(filter index, node)` calls performed by `scheduleOneFilter`,
indices starting at `i` (the Go outer loop stops at the first filter whose
inner loop errors). -/
def scheduleOneFilterCalls (filters : List Filter) (i : Nat) (pod : Pod) (nodes : List V1Node) :
    List (Nat × V1Node) :=
  match filters with
  | [] => []
  | f :: fs =>
    match filterOnce f pod nodes with
    | .error _ => (filterOnceCalls f pod nodes).map (fun n => (i, n))
    | .ok nodesOk =>
      (filterOnceCalls f pod nodes).map (fun n => (i, n)) ++
        scheduleOneFilterCalls fs (i + 1) pod nodesOk

/-- How many scorers `runScorers` invokes (the loop stops after the first
erroring scorer; the accumulator does not influence control flow). -/
def runScorersCount (scorers : List Scorer) (pod : Pod) (nodes : List V1Node) : Nat :=
  match scorers with
  | [] => 0
  | s :: ss =>
    match s pod nodes with
    | .error _ => 1
    | .ok _ => 1 + runScorersCount ss pod nodes

/-- One observable plugin/bind call of a scheduling attempt. -/
inductive PluginCall where
  | filterC (i : Nat) (node : String)
  | scorerC (i : Nat)
  | bindC (node : String)
deriving DecidableEq, Repr

/-- The calls performed by `scheduleOne`: nothing on an empty queue; otherwise
the filter calls, then — only if no filter errored — the scorer calls, then —
only if scoring selected a registered node — the bind. -/
def scheduleOneCalls (k : KubeSim) (_clk : Clock) (nodes : List V1Node) : List PluginCall :=
  match popQueue k.pods with
  | none => []
  | some (pod, _rest) =>
    let fcalls := (scheduleOneFilterCalls k.filters 0 pod nodes).map
      (fun c => PluginCall.filterC c.1 c.2.name)
    match scheduleOneFilter k.filters pod nodes with
    | .error _ => fcalls
    | .ok _ =>
      let scalls := (List.range (runScorersCount k.scorers pod nodes)).map PluginCall.scorerC
      match scheduleOneScore k pod nodes with
      | .error _ => fcalls ++ scalls
      | .ok (nodeSel, _) => fcalls ++ scalls ++ [PluginCall.bindC nodeSel.name]

/-- How many submitters `submit` invokes (the loop stops at the first
erroring submitter, which is itself invoked). -/
def submitCount (subs : List Submitter) (clk : Clock) (nodes : List V1Node) : Nat :=
  match subs with
  | [] => 0
  | s :: ss =>
    match s clk nodes with
    | .error _ => 1
    | .ok _ => 1 + submitCount ss clk nodes

/-! ### Invariants -/

/-- The capacity invariant of spec section 3: for every resource kind, the
allocation never exceeds the capacity. -/
def nodeInv (n : NodeState) : Prop :=
  ∀ k, lookupD n.allocation k ≤ lookupD n.capacity k

/-- A workload's request list is a map: each resource kind appears once. -/
def podWF (p : Pod) : Prop :=
  (p.requests.map Prod.fst).Nodup

/-- A submitter only produces well-formed workloads. -/
def submitterWF (s : Submitter) : Prop :=
  ∀ c ns out, s c ns = .ok out → ∀ p ∈ out, podWF p

/-- Every registry node satisfies the capacity invariant. -/
def simInv (k : KubeSim) : Prop :=
  ∀ n ∈ k.nodes, nodeInv n

/-! ### Allocation-map lemmas -/

theorem lookupD_cons (k' : String) (v : Nat) (rest : List (String × Nat)) (k2 : String) :
    lookupD ((k', v) :: rest) k2 = if k' == k2 then v else lookupD rest k2 := by
  simp only [lookupD, List.find?]
  cases hb : k' == k2 <;> simp [hb]

theorem lookupD_bumpAlloc (m : List (String × Nat)) (k k2 : String) (q : Nat) :
    lookupD (bumpAlloc m k q) k2 = lookupD m k2 + (if k2 = k then q else 0) := by
  induction m with
  | nil =>
    rw [show bumpAlloc [] k q = [(k, q)] from rfl, lookupD_cons]
    by_cases h : k2 = k
    · subst h; simp [lookupD]
    · have h1 : (k == k2) = false := beq_eq_false_iff_ne.mpr (fun he => h he.symm)
      simp [lookupD, h1, h]
  | cons r rest ih =>
    obtain ⟨k', v⟩ := r
    simp only [bumpAlloc]
    cases hk : k' == k with
    | true =>
      have hk' : k' = k := beq_iff_eq.mp hk
      simp only [hk, if_true]
      rw [lookupD_cons, lookupD_cons]
      cases hk2 : k' == k2 with
      | true =>
        have h2 : k2 = k := (beq_iff_eq.mp hk2).symm.trans hk'
        simp [hk2, h2]
      | false =>
        have h2 : ¬ k2 = k := fun he =>
          (beq_eq_false_iff_ne.mp hk2) (hk'.trans he.symm)
        simp [hk2, h2]
    | false =>
      simp only [hk, Bool.false_eq_true, if_false]
      rw [lookupD_cons, lookupD_cons]
      cases hk2 : k' == k2 with
      | true =>
        have h2 : ¬ k2 = k := fun he =>
          (beq_eq_false_iff_ne.mp hk) ((beq_iff_eq.mp hk2).trans he)
        simp [hk2, h2]
      | false => simp [hk2, ih]

theorem reqSum_of_not_mem (reqs : List (String × Nat)) (k : String)
    (h : k ∉ reqs.map Prod.fst) : reqSum reqs k = 0 := by
  induction reqs with
  | nil => rfl
  | cons r rs ih =>
    simp only [List.map_cons, List.mem_cons, not_or] at h
    simp only [reqSum]
    rw [ih h.2]
    have : ¬ r.1 = k := fun he => h.1 he.symm
    simp [this]

theorem lookupD_foldl_bump (reqs : List (String × Nat)) (m : List (String × Nat)) (k : String) :
    lookupD (reqs.foldl (fun acc r => bumpAlloc acc r.1 r.2) m) k
      = lookupD m k + reqSum reqs k := by
  induction reqs generalizing m with
  | nil => simp [reqSum]
  | cons r rs ih =>
    obtain ⟨kr, q⟩ := r
    simp only [List.foldl_cons, reqSum]
    rw [ih, lookupD_bumpAlloc]
    by_cases h : k = kr
    · subst h
      simp only [if_pos rfl]
      omega
    · have h2 : ¬ kr = k := fun hh => h hh.symm
      simp only [if_neg h, if_neg h2]
      omega

theorem reqSum_of_mem_nodup (reqs : List (String × Nat)) (k : String) (q : Nat)
    (hmem : (k, q) ∈ reqs) (hnd : (reqs.map Prod.fst).Nodup) :
    reqSum reqs k = q := by
  induction reqs with
  | nil => cases hmem
  | cons r rs ih =>
    simp only [List.map_cons, List.nodup_cons] at hnd
    rcases List.mem_cons.mp hmem with h | h
    · subst h
      simp only [reqSum, if_pos rfl]
      rw [reqSum_of_not_mem rs k hnd.1]
      simp
    · have hr : ¬ r.1 = k := by
        intro he
        apply hnd.1
        rw [he]
        exact List.mem_map.mpr ⟨(k, q), h, rfl⟩
      simp only [reqSum, if_neg hr]
      rw [ih h hnd.2]
      simp

/-! ### Bind lemmas -/

theorem popQueue_eq_some (l : List Pod) (p : Pod) (r : List Pod)
    (h : popQueue l = some (p, r)) : l = p :: r := by
  cases l with
  | nil => cases h
  | cons a t =>
    simp only [popQueue, Option.some.injEq, Prod.mk.injEq] at h
    rw [h.1, h.2]

theorem createPod_error (n : NodeState) (clk : Clock) (p : Pod) (e : SimError)
    (h : createPod n clk p = .error e) : e = .capacityExceeded := by
  unfold createPod at h
  by_cases hc : p.requests.all
      (fun r => decide (lookupD n.allocation r.1 + r.2 ≤ lookupD n.capacity r.1))
  · rw [if_pos hc] at h; cases h
  · rw [if_neg hc] at h
    cases h
    rfl

theorem createPod_ok_spec (n n' : NodeState) (clk : Clock) (p : Pod)
    (h : createPod n clk p = .ok n') :
    (∀ r ∈ p.requests, lookupD n.allocation r.1 + r.2 ≤ lookupD n.capacity r.1) ∧
      n'.name = n.name ∧ n'.capacity = n.capacity ∧
      ∀ κ, lookupD n'.allocation κ = lookupD n.allocation κ + reqSum p.requests κ := by
  unfold createPod at h
  by_cases hc : p.requests.all
      (fun r => decide (lookupD n.allocation r.1 + r.2 ≤ lookupD n.capacity r.1))
  · rw [if_pos hc] at h
    cases h
    refine ⟨?_, rfl, rfl, ?_⟩
    · intro r hr
      have := List.all_eq_true.mp hc r hr
      exact of_decide_eq_true this
    · intro κ
      exact lookupD_foldl_bump p.requests n.allocation κ
  · rw [if_neg hc] at h; cases h

theorem createPod_rejects (n : NodeState) (clk : Clock) (p : Pod)
    (hc : ¬ ∀ r ∈ p.requests, lookupD n.allocation r.1 + r.2 ≤ lookupD n.capacity r.1) :
    createPod n clk p = .error .capacityExceeded := by
  unfold createPod
  rw [if_neg]
  intro hall
  exact hc (fun r hr => of_decide_eq_true (List.all_eq_true.mp hall r hr))

theorem createPod_preserves_inv (n n' : NodeState) (clk : Clock) (p : Pod)
    (hwf : podWF p) (hinv : nodeInv n) (h : createPod n clk p = .ok n') : nodeInv n' := by
  obtain ⟨hchk, _, hcap, halloc⟩ := createPod_ok_spec n n' clk p h
  intro κ
  rw [hcap, halloc]
  by_cases hm : κ ∈ p.requests.map Prod.fst
  · obtain ⟨r, hr, hfst⟩ := List.mem_map.mp hm
    have hrk : r = (κ, r.2) := by
      obtain ⟨a, b⟩ := r
      simp only at hfst
      rw [hfst]
    have hsum : reqSum p.requests κ = r.2 :=
      reqSum_of_mem_nodup p.requests κ r.2 (hrk ▸ hr) hwf
    rw [hsum]
    have := hchk r hr
    rw [hrk] at this
    exact this
  · rw [reqSum_of_not_mem p.requests κ hm]
    simpa using hinv κ

/-! ### Scheduling-step preservation -/

theorem scheduleOneScore_ok_inv (k : KubeSim) (pod : Pod) (nodes : List V1Node)
    (nd : NodeState) (pod' : Pod) (h : scheduleOneScore k pod nodes = .ok (nd, pod')) :
    nd ∈ k.nodes ∧ pod'.requests = pod.requests := by
  unfold scheduleOneScore at h
  cases hrs : runScorers k.scorers pod nodes [] with
  | error e => rw [hrs] at h; cases h
  | ok m =>
    rw [hrs] at h
    simp only at h
    cases hf : findNode k.nodes (selectMax m).1 with
    | none => rw [hf] at h; cases h
    | some n2 =>
      rw [hf] at h
      cases h
      exact ⟨List.mem_of_find?_eq_some hf, rfl⟩

theorem updateNode_mem (ns : List NodeState) (n' : NodeState) (m : NodeState)
    (hm : m ∈ updateNode ns n') : m = n' ∨ m ∈ ns := by
  unfold updateNode at hm
  obtain ⟨x, hx, hxe⟩ := List.mem_map.mp hm
  cases hb : x.name == n'.name with
  | true =>
    left
    rw [← hxe, if_pos hb]
  | false =>
    right
    rw [← hxe, if_neg (by simp [hb])]
    exact hx

theorem scheduleOne_preserves (k k' : KubeSim) (clk : Clock) (nodes : List V1Node)
    (hpods : ∀ p ∈ k.pods, podWF p) (hinv : simInv k)
    (h : scheduleOne k clk nodes = .ok k') :
    simInv k' ∧ (∀ p ∈ k'.pods, podWF p) ∧ k'.submitters = k.submitters := by
  unfold scheduleOne at h
  cases hq : popQueue k.pods with
  | none =>
    rw [hq] at h
    cases h
    exact ⟨hinv, hpods, rfl⟩
  | some pr =>
    obtain ⟨pod, rest⟩ := pr
    rw [hq] at h
    simp only at h
    have hlist := popQueue_eq_some k.pods pod rest hq
    cases hfil : scheduleOneFilter k.filters pod nodes with
    | error e => rw [hfil] at h; cases h
    | ok nf =>
      rw [hfil] at h
      simp only at h
      cases hsc : scheduleOneScore k pod nodes with
      | error e => rw [hsc] at h; cases h
      | ok ndp =>
        obtain ⟨nodeSel, pod'⟩ := ndp
        rw [hsc] at h
        simp only at h
        cases hcp : createPod nodeSel clk pod' with
        | error e => rw [hcp] at h; cases h
        | ok nodeSel' =>
          rw [hcp] at h
          cases h
          obtain ⟨hmem, hreq⟩ := scheduleOneScore_ok_inv k pod nodes nodeSel pod' hsc
          have hpodwf : podWF pod := hpods pod (hlist ▸ List.mem_cons_self pod rest)
          have hpod'wf : podWF pod' := by unfold podWF; rw [hreq]; exact hpodwf
          refine ⟨?_, ?_, rfl⟩
          · intro m hm
            rcases updateNode_mem k.nodes nodeSel' m hm with he | he
            · rw [he]
              exact createPod_preserves_inv nodeSel nodeSel' clk pod' hpod'wf (hinv nodeSel hmem) hcp
            · exact hinv m he
          · intro p hp
            exact hpods p (hlist ▸ List.mem_cons_of_mem pod hp)

theorem submit_preserves_wf (subs : List Submitter) (clk : Clock) (nodes : List V1Node)
    (q : List Pod) :
    (∀ s ∈ subs, submitterWF s) → (∀ p ∈ q, podWF p) →
      ∀ p ∈ (submit subs clk nodes q).1, podWF p := by
  induction subs generalizing q with
  | nil =>
    intro _ hq
    simpa [submit] using hq
  | cons s ss ih =>
    intro hs hq
    simp only [submit]
    cases hsres : s clk nodes with
    | error e => simpa using hq
    | ok pods =>
      apply ih (q ++ pods) (fun s2 hs2 => hs s2 (List.mem_cons_of_mem s hs2))
      intro p hp
      rcases List.mem_append.mp hp with hm | hm
      · exact hq p hm
      · exact hs s (List.mem_cons_self s ss) clk nodes pods hsres p hm

/-- The combined well-formedness the run loop preserves. -/
def simWF (k : KubeSim) : Prop :=
  simInv k ∧ (∀ p ∈ k.pods, podWF p) ∧ (∀ s ∈ k.submitters, submitterWF s)

theorem runTick_preserves (k k' : KubeSim) (clk : Clock)
    (hwf : simWF k) (h : runTick k clk = .ok k') : simWF k' := by
  unfold runTick at h
  simp only at h
  cases hsub : submit k.submitters clk (k.nodes.map toV1) k.pods with
  | mk q err =>
    cases err with
    | some e => rw [hsub] at h; cases h
    | none =>
      rw [hsub] at h
      simp only at h
      have hq : ∀ p ∈ q, podWF p := by
        have hall := submit_preserves_wf k.submitters clk (k.nodes.map toV1) k.pods
          hwf.2.2 hwf.2.1
        rw [hsub] at hall
        exact hall
      have h2 := scheduleOne_preserves { k with pods := q } k' clk (k.nodes.map toV1)
        hq hwf.1 h
      exact ⟨h2.1, h2.2.1, h2.2.2 ▸ hwf.2.2⟩

theorem runTicks_preserves (cs : List Clock) (k k' : KubeSim)
    (hwf : simWF k) (h : runTicks k cs = .ok k') : simWF k' := by
  induction cs generalizing k with
  | nil =>
    simp only [runTicks] at h
    cases h
    exact hwf
  | cons c cs ih =>
    simp only [runTicks] at h
    cases ht : runTick k c with
    | error e => rw [ht] at h; cases h
    | ok k2 =>
      rw [ht] at h
      exact ih k2 (runTick_preserves k k2 c hwf ht) h

/-! ### Filter-pipeline lemmas -/

theorem filterOnce_ok_sublist (f : Filter) (pod : Pod) (l l' : List V1Node)
    (h : filterOnce f pod l = .ok l') : l'.Sublist l := by
  induction l generalizing l' with
  | nil =>
    simp only [filterOnce] at h
    cases h
    exact List.Sublist.slnil
  | cons n ns ih =>
    simp only [filterOnce] at h
    cases hf : f pod n with
    | error e => rw [hf] at h; cases h
    | ok b =>
      rw [hf] at h
      cases b with
      | true =>
        simp only at h
        cases hr : filterOnce f pod ns with
        | error e => rw [hr] at h; cases h
        | ok rest =>
          rw [hr] at h
          cases h
          exact (ih rest hr).cons₂ n
      | false =>
        simp only at h
        exact (ih l' h).cons n

theorem filterOnce_mem_ok (f : Filter) (pod : Pod) (l l' : List V1Node)
    (h : filterOnce f pod l = .ok l') : ∀ n ∈ l', f pod n = .ok true := by
  induction l generalizing l' with
  | nil =>
    simp only [filterOnce] at h
    cases h
    intro n hn
    cases hn
  | cons n ns ih =>
    simp only [filterOnce] at h
    cases hf : f pod n with
    | error e => rw [hf] at h; cases h
    | ok b =>
      rw [hf] at h
      cases b with
      | true =>
        simp only at h
        cases hr : filterOnce f pod ns with
        | error e => rw [hr] at h; cases h
        | ok rest =>
          rw [hr] at h
          cases h
          intro x hx
          rcases List.mem_cons.mp hx with he | he
          · rw [he]; exact hf
          · exact ih rest hr x he
      | false =>
        simp only at h
        exact ih l' h

theorem scheduleOneFilter_append_ok (xs ys : List Filter) (pod : Pod)
    (nodes m : List V1Node) (h : scheduleOneFilter xs pod nodes = .ok m) :
    scheduleOneFilter (xs ++ ys) pod nodes = scheduleOneFilter ys pod m := by
  induction xs generalizing nodes with
  | nil =>
    simp only [scheduleOneFilter] at h
    cases h
    rfl
  | cons f fs ih =>
    simp only [scheduleOneFilter, List.cons_append] at h ⊢
    cases hf : filterOnce f pod nodes with
    | error e => rw [hf] at h; cases h
    | ok n1 =>
      rw [hf] at h
      exact ih n1 h

theorem scheduleOneFilter_append_error (xs ys : List Filter) (pod : Pod)
    (nodes : List V1Node) (e : SimError) (h : scheduleOneFilter xs pod nodes = .error e) :
    scheduleOneFilter (xs ++ ys) pod nodes = .error e := by
  induction xs generalizing nodes with
  | nil => simp only [scheduleOneFilter] at h; cases h
  | cons f fs ih =>
    simp only [scheduleOneFilter, List.cons_append] at h ⊢
    cases hf : filterOnce f pod nodes with
    | error e2 =>
      rw [hf] at h
      simp only at h ⊢
      exact h
    | ok n1 =>
      rw [hf] at h
      simp only at h ⊢
      exact ih n1 h

theorem scheduleOneFilterCalls_append_ok (xs ys : List Filter) (i : Nat) (pod : Pod)
    (nodes m : List V1Node) (h : scheduleOneFilter xs pod nodes = .ok m) :
    scheduleOneFilterCalls (xs ++ ys) i pod nodes
      = scheduleOneFilterCalls xs i pod nodes
          ++ scheduleOneFilterCalls ys (i + xs.length) pod m := by
  induction xs generalizing i nodes with
  | nil =>
    simp only [scheduleOneFilter] at h
    cases h
    simp [scheduleOneFilterCalls]
  | cons f fs ih =>
    simp only [scheduleOneFilter] at h
    cases hf : filterOnce f pod nodes with
    | error e => rw [hf] at h; cases h
    | ok n1 =>
      rw [hf] at h
      simp only at h
      simp only [List.cons_append, scheduleOneFilterCalls, hf, List.append_eq]
      rw [ih (i + 1) n1 h]
      have harith : i + 1 + fs.length = i + (fs.length + 1) := by omega
      simp [harith, List.append_assoc, List.length_cons]

theorem filterOnce_error_at (f : Filter) (pod : Pod) (m1 : List V1Node) (n : V1Node)
    (m2 : List V1Node) (e : SimError) (h1 : ∀ x ∈ m1, ∃ b, f pod x = .ok b)
    (h2 : f pod n = .error e) :
    filterOnce f pod (m1 ++ n :: m2) = .error e
      ∧ filterOnceCalls f pod (m1 ++ n :: m2) = m1 ++ [n] := by
  induction m1 with
  | nil =>
    refine ⟨?_, ?_⟩ <;> simp [filterOnce, filterOnceCalls, h2]
  | cons x xs ih =>
    obtain ⟨b, hb⟩ := h1 x (List.mem_cons_self x xs)
    have ihr := ih (fun y hy => h1 y (List.mem_cons_of_mem x hy))
    simp only [List.cons_append, filterOnce, filterOnceCalls, hb]
    cases b with
    | true => simp [ihr.1, ihr.2]
    | false => simp [ihr.1, ihr.2]

/-! ### Scorer-pipeline lemmas -/

/-- Lookup of a host's accumulated score (Go map read, zero default). -/
def scoreOf (m : List (String × Int)) (h : String) : Int :=
  match m.find? (fun p => p.1 == h) with
  | some p => p.2
  | none => 0

theorem scoreOf_cons (h' : String) (v : Int) (rest : List (String × Int)) (h2 : String) :
    scoreOf ((h', v) :: rest) h2 = if h' == h2 then v else scoreOf rest h2 := by
  simp only [scoreOf, List.find?]
  cases hb : h' == h2 <;> simp [hb]

theorem scoreOf_addScore (m : List (String × Int)) (h h2 : String) (d : Int) :
    scoreOf (addScore m h d) h2 = scoreOf m h2 + (if h2 = h then d else 0) := by
  induction m with
  | nil =>
    rw [show addScore [] h d = [(h, d)] from rfl, scoreOf_cons]
    by_cases he : h2 = h
    · subst he; simp [scoreOf]
    · have h1 : (h == h2) = false := beq_eq_false_iff_ne.mpr (fun he2 => he he2.symm)
      simp [scoreOf, h1, he]
  | cons r rest ih =>
    obtain ⟨h', v⟩ := r
    simp only [addScore]
    cases hk : h' == h with
    | true =>
      have hk' : h' = h := beq_iff_eq.mp hk
      simp only [hk, if_true]
      rw [scoreOf_cons, scoreOf_cons]
      cases hk2 : h' == h2 with
      | true =>
        have he2 : h2 = h := (beq_iff_eq.mp hk2).symm.trans hk'
        simp [hk2, he2]
      | false =>
        have he2 : ¬ h2 = h := fun he =>
          (beq_eq_false_iff_ne.mp hk2) (hk'.trans he.symm)
        simp [hk2, he2]
    | false =>
      simp only [hk, Bool.false_eq_true, if_false]
      rw [scoreOf_cons, scoreOf_cons]
      cases hk2 : h' == h2 with
      | true =>
        have he2 : ¬ h2 = h := fun he =>
          (beq_eq_false_iff_ne.mp hk) ((beq_iff_eq.mp hk2).trans he)
        simp [hk2, he2]
      | false => simp [hk2, ih]

/-- The weighted contribution of one scorer's output to host `h`
(`score.Score * weight` summed over the entries naming `h`). -/
def contrib (out : List NodeScore) (w : Int) (h : String) : Int :=
  match out with
  | [] => 0
  | sc :: rest => (if sc.host = h then sc.score * w else 0) + contrib rest w h

theorem scoreOf_foldl_addScore (out : List NodeScore) (w : Int)
    (m : List (String × Int)) (h : String) :
    scoreOf (out.foldl (fun acc sc => addScore acc sc.host (sc.score * w)) m) h
      = scoreOf m h + contrib out w h := by
  induction out generalizing m with
  | nil => simp [contrib]
  | cons sc rest ih =>
    simp only [List.foldl_cons, contrib]
    rw [ih, scoreOf_addScore]
    by_cases he : h = sc.host
    · subst he
      simp only [if_pos rfl]
      omega
    · have he2 : ¬ sc.host = h := fun hh => he hh.symm
      simp only [if_neg he, if_neg he2]
      omega

theorem runScorers_ok_scoreOf (scorers : List Scorer) (pod : Pod) (nodes : List V1Node)
    (outws : List (List NodeScore × Int))
    (hf : List.Forall₂ (fun s ow => s pod nodes = .ok ow) scorers outws) :
    ∀ m0 m, runScorers scorers pod nodes m0 = .ok m →
      ∀ h, scoreOf m h = scoreOf m0 h + (outws.map (fun ow => contrib ow.1 ow.2 h)).sum := by
  induction hf with
  | nil =>
    intro m0 m h hh
    simp only [runScorers] at h
    cases h
    simp
  | cons hs _ ih =>
    intro m0 m h hh
    rename_i s ow ss ows _
    simp only [runScorers, hs] at h
    have := ih _ m h hh
    rw [this, scoreOf_foldl_addScore]
    simp only [List.map_cons, List.sum_cons]
    omega

/-! ### Selection lemmas -/

theorem foldl_selStep_stay (l : List (String × Int)) (a : String × Int)
    (h : ∀ e ∈ l, e.2 ≤ a.2) : l.foldl selStep a = a := by
  induction l with
  | nil => rfl
  | cons e rest ih =>
    simp only [List.foldl_cons]
    have he : ¬ e.2 > a.2 := not_lt.mpr (h e (List.mem_cons_self e rest))
    rw [show selStep a e = a from by simp [selStep, he]]
    exact ih (fun x hx => h x (List.mem_cons_of_mem e hx))

theorem foldl_selStep_spec (l : List (String × Int)) (a p : String × Int)
    (h : l.foldl selStep a = p) : p = a ∨ (p ∈ l ∧ a.2 < p.2) := by
  induction l generalizing a with
  | nil => left; exact h.symm
  | cons e rest ih =>
    simp only [List.foldl_cons] at h
    by_cases he : e.2 > a.2
    · rw [show selStep a e = (e.1, e.2) from by simp [selStep, he]] at h
      rcases ih (e.1, e.2) h with hp | hp
      · right
        constructor
        · rw [hp]; exact List.mem_cons_self e rest
        · rw [hp]; exact he
      · right
        exact ⟨List.mem_cons_of_mem e hp.1, lt_trans he hp.2⟩
    · rw [show selStep a e = a from by simp [selStep, he]] at h
      rcases ih a h with hp | hp
      · left; exact hp
      · right; exact ⟨List.mem_cons_of_mem e hp.1, hp.2⟩

theorem foldl_selStep_max (l : List (String × Int)) (n0 : String) (s0 : Int) :
    (n0, s0) ∈ l → (∀ e ∈ l, e.2 ≤ s0) → (∀ e ∈ l, e.2 = s0 → e.1 = n0) →
      ∀ a : String × Int, a.2 < s0 → l.foldl selStep a = (n0, s0) := by
  induction l with
  | nil =>
    intro hmem
    cases hmem
  | cons e rest ih =>
    intro hmem hle huni a ha
    simp only [List.foldl_cons]
    by_cases hgt : e.2 > a.2
    · rw [show selStep a e = (e.1, e.2) from by simp [selStep, hgt]]
      by_cases hs : e.2 = s0
      · have hn : e.1 = n0 := huni e (List.mem_cons_self e rest) hs
        rw [hn, hs]
        exact foldl_selStep_stay rest (n0, s0)
          (fun x hx => hle x (List.mem_cons_of_mem e hx))
      · have hlt : e.2 < s0 := lt_of_le_of_ne (hle e (List.mem_cons_self e rest)) hs
        have hmem2 : (n0, s0) ∈ rest := by
          rcases List.mem_cons.mp hmem with hh | hh
          · exfalso
            rw [← hh] at hlt
            exact lt_irrefl s0 hlt
          · exact hh
        exact ih hmem2 (fun x hx => hle x (List.mem_cons_of_mem e hx))
          (fun x hx hxs => huni x (List.mem_cons_of_mem e hx) hxs) (e.1, e.2) hlt
    · rw [show selStep a e = a from by simp [selStep, hgt]]
      have hmem2 : (n0, s0) ∈ rest := by
        rcases List.mem_cons.mp hmem with hh | hh
        · exfalso
          have he2 : e.2 = s0 := by rw [← hh]
          have : e.2 > a.2 := by omega
          exact hgt this
        · exact hh
      exact ih hmem2 (fun x hx => hle x (List.mem_cons_of_mem e hx))
        (fun x hx hxs => huni x (List.mem_cons_of_mem e hx) hxs) a ha

/-! ### Registry-lookup lemmas -/

theorem findNode_some (ns : List NodeState) (name : String) (nd : NodeState)
    (h : findNode ns name = some nd) : nd ∈ ns ∧ nd.name = name := by
  unfold findNode at h
  have hp := List.find?_some h
  simp only at hp
  exact ⟨List.mem_of_find?_eq_some h, beq_iff_eq.mp hp⟩

theorem findNode_none (ns : List NodeState) (name : String)
    (h : ∀ n ∈ ns, n.name ≠ name) : findNode ns name = none :=
  List.find?_eq_none.mpr (fun n hn => by simp [h n hn])

/-! ### Error-propagation lemmas: every error of the scheduling attempt is
returned by `scheduleOne`, and `Run` terminates on it. -/

theorem scheduleOne_filter_error (k : KubeSim) (clk : Clock) (nodes : List V1Node)
    (pod : Pod) (rest : List Pod) (e : SimError)
    (hq : popQueue k.pods = some (pod, rest))
    (hf : scheduleOneFilter k.filters pod nodes = .error e) :
    scheduleOne k clk nodes = .error e := by
  unfold scheduleOne
  rw [hq]
  simp only
  rw [hf]

theorem scheduleOne_score_error (k : KubeSim) (clk : Clock) (nodes : List V1Node)
    (pod : Pod) (rest : List Pod) (fr : List V1Node) (e : SimError)
    (hq : popQueue k.pods = some (pod, rest))
    (hf : scheduleOneFilter k.filters pod nodes = .ok fr)
    (hs : scheduleOneScore k pod nodes = .error e) :
    scheduleOne k clk nodes = .error e := by
  unfold scheduleOne
  rw [hq]
  simp only
  rw [hf]
  simp only
  rw [hs]

theorem scheduleOne_bind_error (k : KubeSim) (clk : Clock) (nodes : List V1Node)
    (pod : Pod) (rest : List Pod) (fr : List V1Node) (nd : NodeState) (pod' : Pod)
    (e : SimError)
    (hq : popQueue k.pods = some (pod, rest))
    (hf : scheduleOneFilter k.filters pod nodes = .ok fr)
    (hs : scheduleOneScore k pod nodes = .ok (nd, pod'))
    (hb : createPod nd clk pod' = .error e) :
    scheduleOne k clk nodes = .error e := by
  unfold scheduleOne
  rw [hq]
  simp only
  rw [hf]
  simp only
  rw [hs]
  simp only
  rw [hb]

theorem runTick_submit_error (k : KubeSim) (clk : Clock) (q : List Pod) (e : SimError)
    (h : submit k.submitters clk (k.nodes.map toV1) k.pods = (q, some e)) :
    runTick k clk = .error e := by
  unfold runTick
  simp only
  rw [h]

theorem runTick_submit_ok (k : KubeSim) (clk : Clock) (q : List Pod)
    (h : submit k.submitters clk (k.nodes.map toV1) k.pods = (q, none)) :
    runTick k clk = scheduleOne { k with pods := q } clk (k.nodes.map toV1) := by
  unfold runTick
  simp only
  rw [h]

theorem runTicks_error_step (k : KubeSim) (c : Clock) (cs : List Clock) (e : SimError)
    (h : runTick k c = .error e) : runTicks k (c :: cs) = .error e := by
  simp only [runTicks]
  rw [h]

theorem runTicks_ok_step (k k' : KubeSim) (c : Clock) (cs : List Clock)
    (h : runTick k c = .ok k') : runTicks k (c :: cs) = runTicks k' cs := by
  simp only [runTicks]
  rw [h]

/-! ### Submitter-loop lemmas -/

theorem submit_all_ok (subs : List Submitter) (outs : List (List Pod)) (clk : Clock)
    (nodes : List V1Node)
    (hf : List.Forall₂ (fun s out => s clk nodes = .ok out) subs outs) :
    ∀ q, submit subs clk nodes q = (q ++ outs.flatten, none)
      ∧ submitCount subs clk nodes = subs.length := by
  induction hf with
  | nil =>
    intro q
    simp [submit, submitCount]
  | cons hs htail ih =>
    intro q
    rename_i s out ss outs2
    simp only [submit, submitCount, hs]
    have := ih (q ++ out)
    rw [this.1, this.2]
    refine ⟨?_, ?_⟩
    · simp [List.append_assoc]
    · simp only [List.length_cons]
      omega

theorem submit_first_error (ss1 : List Submitter) (s : Submitter) (ss2 : List Submitter)
    (outs : List (List Pod)) (clk : Clock) (nodes : List V1Node) (e : SimError)
    (hf : List.Forall₂ (fun s2 out => s2 clk nodes = .ok out) ss1 outs)
    (he : s clk nodes = .error e) :
    ∀ q, submit (ss1 ++ s :: ss2) clk nodes q = (q ++ outs.flatten, some e)
      ∧ submitCount (ss1 ++ s :: ss2) clk nodes = ss1.length + 1 := by
  induction hf with
  | nil =>
    intro q
    simp [submit, submitCount, he]
  | cons hs htail ih =>
    intro q
    rename_i s2 out ss outs2
    simp only [List.cons_append, submit, submitCount, hs, List.append_eq]
    have := ih (q ++ out)
    rw [this.1, this.2]
    refine ⟨?_, ?_⟩
    · simp [List.append_assoc]
    · simp only [List.length_cons]
      omega

/-! ### Scorer-loop auxiliary lemmas -/

theorem scheduleOneScore_eq (k : KubeSim) (pod : Pod) (nodes : List V1Node)
    (m : List (String × Int)) (h : runScorers k.scorers pod nodes [] = .ok m) :
    scheduleOneScore k pod nodes =
      match findNode k.nodes (selectMax m).1 with
      | none => .error (.notFound (selectMax m).1)
      | some n => .ok (n, { pod with nodeName := (selectMax m).1 }) := by
  unfold scheduleOneScore
  rw [h]

theorem runScorers_empty_nodes (scorers : List Scorer) (pod : Pod) :
    (∀ s ∈ scorers, ∀ e, s pod [] ≠ .error e) →
    (∀ s ∈ scorers, ∀ out w, s pod [] = .ok (out, w) → out = []) →
    ∀ acc, runScorers scorers pod [] acc = .ok acc := by
  induction scorers with
  | nil =>
    intro _ _ acc
    rfl
  | cons s ss ih =>
    intro h1 h2 acc
    simp only [runScorers]
    cases hs : s pod [] with
    | error e => exact absurd hs (h1 s (List.mem_cons_self s ss) e)
    | ok ow =>
      obtain ⟨out, w⟩ := ow
      have hout : out = [] := h2 s (List.mem_cons_self s ss) out w hs
      subst hout
      simp only [List.foldl_nil]
      exact ih (fun s2 hm => h1 s2 (List.mem_cons_of_mem s hm))
        (fun s2 hm => h2 s2 (List.mem_cons_of_mem s hm)) acc

/-! ### Concrete instances used by claim theorems, counterexamples and witnesses -/

def nodeA : NodeState := { name := "a", capacity := [("cpu", 4)], allocation := [] }

def nodeB : NodeState := { name := "b", capacity := [("cpu", 4)], allocation := [] }

def vA : V1Node := toV1 nodeA

def vB : V1Node := toV1 nodeB

def podReq1 : Pod := { name := "p", requests := [("cpu", 1)], nodeName := "" }

def filterRejectB : Filter := fun _ n => .ok (n.name != "b")

def scorerPreferB : Scorer :=
  fun _ _ => .ok ([{ host := "a", score := 1 }, { host := "b", score := 5 }], 1)

def simC1 : KubeSim :=
  { nodes := [nodeA, nodeB], pods := [podReq1], submitters := [],
    filters := [filterRejectB], scorers := [scorerPreferB] }

def nodeBBound : NodeState := { name := "b", capacity := [("cpu", 4)], allocation := [("cpu", 1)] }

def simC1After : KubeSim := { simC1 with pods := [], nodes := [nodeA, nodeBBound] }

/-- C1: the claim fails on the code. In `simC1` the only filter rejects node
`b` (the filtered list is `[vA]`), yet the scheduling attempt scores the
original list, selects `b` and binds the pod to `b`: `scheduleOne` consults
only the error of `scheduleOneFilter` (kubesim.go:151) and passes the
unfiltered `nodes` to `scheduleOneScore` (kubesim.go:155), so the filtered
list computed at kubesim.go:182 is dropped. -/
theorem c1_filtered_node_is_bound :
    scheduleOneFilter simC1.filters podReq1 [vA, vB] = .ok [vA]
      ∧ scheduleOne simC1 0 [vA, vB] = .ok simC1After :=
  ⟨rfl, rfl⟩

def nodeSmall : NodeState := { name := "a", capacity := [("cpu", 2)], allocation := [] }

def podBig : Pod := { name := "q", requests := [("cpu", 3)], nodeName := "" }

def scorerA : Scorer := fun _ _ => .ok ([{ host := "a", score := 1 }], 1)

def simC2 : KubeSim :=
  { nodes := [nodeSmall], pods := [podBig], submitters := [], filters := [], scorers := [scorerA] }

/-- C2: counterexample to the claim as stated. In `simC2` the popped workload
fails its bind with a capacity-exceeded rejection on the first tick, and the
run terminates with that error instead of proceeding to the second tick: the
rejection is fatal, contradicting the claimed non-fatal handling. -/
theorem c2_capacity_rejection_terminates_run :
    runTicks simC2 [1, 2] = .error .capacityExceeded :=
  rfl

/-- C2 amended: any error of the scheduling attempt — including a
capacity-exceeded bind rejection — is returned by `scheduleOne`
(kubesim.go:161-163) and terminates the `Run` loop (kubesim.go:118-120);
only the empty-queue condition is non-fatal. -/
theorem c2_scheduling_errors_are_fatal :
    (∀ (k : KubeSim) (clk : Clock) (nodes : List V1Node) (pod : Pod) (rest : List Pod)
        (fr : List V1Node) (nd : NodeState) (pod' : Pod) (e : SimError),
        popQueue k.pods = some (pod, rest) →
        scheduleOneFilter k.filters pod nodes = .ok fr →
        scheduleOneScore k pod nodes = .ok (nd, pod') →
        createPod nd clk pod' = .error e →
        scheduleOne k clk nodes = .error e)
    ∧ (∀ (k : KubeSim) (c : Clock) (cs : List Clock) (e : SimError),
        runTick k c = .error e → runTicks k (c :: cs) = .error e) :=
  ⟨scheduleOne_bind_error, runTicks_error_step⟩

/-- C2 witness: the amended theorem applied to `simC2`. -/
theorem c2_fatal_witness :
    scheduleOne simC2 1 [toV1 nodeSmall] = .error .capacityExceeded
      ∧ runTicks simC2 [1, 2] = .error .capacityExceeded := by
  constructor
  · exact c2_scheduling_errors_are_fatal.1 simC2 1 [toV1 nodeSmall] podBig [] [toV1 nodeSmall]
      nodeSmall { podBig with nodeName := "a" } .capacityExceeded rfl rfl rfl rfl
  · exact c2_scheduling_errors_are_fatal.2 simC2 1 [2] .capacityExceeded rfl

def scorerPerNode : Scorer :=
  fun _ ns => .ok (ns.map (fun n => { host := n.name, score := 1 }), 1)

def simC3 : KubeSim :=
  { nodes := [nodeA], pods := [], submitters := [], filters := [], scorers := [scorerPerNode] }

/-- C3: counterexample to the claimed distinctness. With an empty candidate
list (every node filtered out) the attempt fails with the not-found error on
the empty selection — `node "" not found`, the very same condition the claim
reserves for a vanished selected node — so no distinct no-feasible-node
condition exists in the code. -/
theorem c3_empty_candidates_yield_notfound :
    scheduleOneScore simC3 podReq1 [] = .error (.notFound ("")) :=
  rfl

/-- C3 amended: for every scheduling attempt whose candidate list is empty
(scorers score only offered nodes and do not error), selection fails with the
`NotFound ""` error of kubesim.go:217-219 — the same condition as a vanished
selected node, not a distinct no-feasible-node condition. -/
theorem c3_empty_candidates_same_error :
    ∀ (k : KubeSim) (pod : Pod),
      (∀ s ∈ k.scorers, ∀ e, s pod [] ≠ .error e) →
      (∀ s ∈ k.scorers, ∀ out w, s pod [] = .ok (out, w) → out = []) →
      (∀ n ∈ k.nodes, n.name ≠ "") →
      scheduleOneScore k pod [] = .error (.notFound ("")) := by
  intro k pod h1 h2 h3
  have hrs : runScorers k.scorers pod [] [] = .ok [] :=
    runScorers_empty_nodes k.scorers pod h1 h2 []
  rw [scheduleOneScore_eq k pod [] [] hrs]
  have hfn : findNode k.nodes (selectMax []).1 = none := findNode_none k.nodes ("") h3
  rw [hfn]
  rfl

/-- C3 witness: the amended theorem applied to `simC3`. -/
theorem c3_empty_witness :
    scheduleOneScore simC3 podReq1 [] = .error (.notFound ("")) := by
  apply c3_empty_candidates_same_error simC3 podReq1
  · intro s hs e
    have he : s = scorerPerNode := by simpa [simC3] using hs
    subst he
    simp [scorerPerNode]
  · intro s hs out w hw
    have he : s = scorerPerNode := by simpa [simC3] using hs
    subst he
    simp only [scorerPerNode, List.map_nil, Except.ok.injEq, Prod.mk.injEq] at hw
    exact hw.1.symm
  · intro n hn
    have he : n = nodeA := by simpa [simC3] using hn
    subst he
    simp [nodeA]

def scorerNegA : Scorer := fun _ _ => .ok ([{ host := "a", score := -2 }], 1)

def simC4 : KubeSim :=
  { nodes := [nodeA], pods := [], submitters := [], filters := [], scorers := [scorerNegA] }

/-- C4: counterexample to the claim as stated. In `simC4` node `a` is feasible
and carries the strictly greatest accumulated total (-2, the only total), yet
it is not selected: the running maximum starts at `scoreMax = -1`
(kubesim.go:208), so no node with a negative total ever replaces it and the
attempt fails with `NotFound ""`. -/
theorem c4_negative_max_not_selected :
    scheduleOneScore simC4 podReq1 [vA] = .error (.notFound ("")) :=
  rfl

def scorerS1 : Scorer :=
  fun _ _ => .ok ([{ host := "a", score := 1 }, { host := "b", score := 3 }], 2)

def scorerS2 : Scorer :=
  fun _ _ => .ok ([{ host := "a", score := 5 }, { host := "b", score := 0 }], 1)

def simAgg : KubeSim :=
  { nodes := [nodeA, nodeB], pods := [], submitters := [],
    filters := [], scorers := [scorerS1, scorerS2] }

/-- C4 amended: each node's accumulated total is the sum over scorers of its
score times the scorer's weight, and the node with the strictly greatest
total is selected provided that total is nonnegative (the running maximum is
initialized to -1); in particular with S1 (weight 2, a:1 b:3) and S2
(weight 1, a:5 b:0) node `a` is chosen with total 7 against 6. -/
theorem c4_weighted_totals_and_argmax :
    (∀ (scorers : List Scorer) (pod : Pod) (nodes : List V1Node)
        (outws : List (List NodeScore × Int)) (m : List (String × Int)),
        List.Forall₂ (fun s ow => s pod nodes = .ok ow) scorers outws →
        runScorers scorers pod nodes [] = .ok m →
        ∀ h, scoreOf m h = (outws.map (fun ow => contrib ow.1 ow.2 h)).sum)
    ∧ (∀ (k : KubeSim) (pod : Pod) (nodes : List V1Node) (m : List (String × Int))
        (n0 : String) (s0 : Int) (nd : NodeState),
        runScorers k.scorers pod nodes [] = .ok m →
        (n0, s0) ∈ m → 0 ≤ s0 →
        (∀ e ∈ m, e.2 ≤ s0) → (∀ e ∈ m, e.2 = s0 → e.1 = n0) →
        findNode k.nodes n0 = some nd →
        scheduleOneScore k pod nodes = .ok (nd, { pod with nodeName := n0 }))
    ∧ scheduleOneScore simAgg podReq1 [vA, vB]
        = .ok (nodeA, { podReq1 with nodeName := "a" }) := by
  refine ⟨?_, ?_, rfl⟩
  · intro scorers pod nodes outws m hf hrun h
    have hagg := runScorers_ok_scoreOf scorers pod nodes outws hf [] m hrun h
    rw [hagg]
    simp [scoreOf]
  · intro k pod nodes m n0 s0 nd hrun hmem h0 hle huni hfind
    have hsel : selectMax m = (n0, s0) :=
      foldl_selStep_max m n0 s0 hmem hle huni ("", -1)
        (by show (-1 : Int) < s0; omega)
    have hfind2 : findNode k.nodes (selectMax m).1 = some nd := by
      rw [hsel]
      exact hfind
    rw [scheduleOneScore_eq k pod nodes m hrun, hfind2, hsel]

/-- C4 witness: the amended selection theorem applied to the concrete
S1/S2 aggregation instance. -/
theorem c4_argmax_witness :
    scheduleOneScore simAgg podReq1 [vA, vB]
      = .ok (nodeA, { podReq1 with nodeName := "a" }) :=
  c4_weighted_totals_and_argmax.2.1 simAgg podReq1 [vA, vB] [("a", 7), ("b", 6)] "a" 7 nodeA
    rfl (by decide) (by decide) (by decide) (by decide) rfl

/-- C5: bind semantics and the capacity invariant (the `node` package is
modelled from the spec). A successful bind preserves the per-kind capacity
invariant; a bind whose capacity check fails is rejected with
`capacityExceeded` (and, being functional, leaves the node unchanged: the
only bind errors are capacity rejections and no new state is produced); and
over any run, every registry node keeps `allocation ≤ capacity` at every
prefix of ticks. -/
theorem c5_capacity_invariant :
    (∀ (n n' : NodeState) (clk : Clock) (p : Pod),
        podWF p → nodeInv n → createPod n clk p = .ok n' → nodeInv n')
    ∧ (∀ (n : NodeState) (clk : Clock) (p : Pod),
        (¬ ∀ r ∈ p.requests, lookupD n.allocation r.1 + r.2 ≤ lookupD n.capacity r.1) →
        createPod n clk p = .error .capacityExceeded)
    ∧ (∀ (n : NodeState) (clk : Clock) (p : Pod) (e : SimError),
        createPod n clk p = .error e → e = .capacityExceeded)
    ∧ (∀ (cs : List Clock) (k k' : KubeSim),
        simWF k → runTicks k cs = .ok k' → simInv k') :=
  ⟨createPod_preserves_inv, createPod_rejects, createPod_error,
    fun cs k k' hwf h => (runTicks_preserves cs k k' hwf h).1⟩

def nodeABound : NodeState := { name := "a", capacity := [("cpu", 4)], allocation := [("cpu", 1)] }

/-- C5 witness: a concrete successful bind preserves the invariant, and a
concrete oversized request is rejected. -/
theorem c5_bind_witness :
    nodeInv nodeABound ∧ createPod nodeSmall 0 podBig = .error .capacityExceeded := by
  constructor
  · apply c5_capacity_invariant.1 nodeA nodeABound 0 podReq1
    · show (podReq1.requests.map Prod.fst).Nodup
      decide
    · intro k2
      exact Nat.zero_le _
    · rfl
  · apply c5_capacity_invariant.2.1 nodeSmall 0 podBig
    decide

/-- C6: filter monotonicity. After the k-1 prefix of filters produces
candidate list `a` and the k-th filter produces `b`, `b` is a sublist (hence
subset) of `a`; a node of `a` rejected by the k-th filter is not in `b`; and
the remaining filters are applied to exactly `b`, so a rejected node is never
presented to filter k+1 (kubesim.go:168-188). -/
theorem c6_filter_monotonic :
    ∀ (fs1 : List Filter) (f : Filter) (fs2 : List Filter) (pod : Pod)
      (nodes a b : List V1Node),
      scheduleOneFilter fs1 pod nodes = .ok a →
      filterOnce f pod a = .ok b →
      b.Sublist a ∧ (∀ n ∈ b, n ∈ a) ∧ (∀ n ∈ a, f pod n = .ok false → n ∉ b)
        ∧ scheduleOneFilter (fs1 ++ f :: fs2) pod nodes = scheduleOneFilter fs2 pod b := by
  intro fs1 f fs2 pod nodes a b h1 h2
  have hsub := filterOnce_ok_sublist f pod a b h2
  refine ⟨hsub, fun n hn => hsub.subset hn, ?_, ?_⟩
  · intro n _hna hf hnb
    have htrue := filterOnce_mem_ok f pod a b h2 n hnb
    rw [hf] at htrue
    simp at htrue
  · rw [scheduleOneFilter_append_ok fs1 (f :: fs2) pod nodes a h1]
    simp only [scheduleOneFilter, h2]

/-- C6 witness: the monotonicity theorem applied to a single rejecting
filter over two nodes. -/
theorem c6_monotonic_witness :
    List.Sublist [vA] [vA, vB] ∧ (∀ n ∈ [vA], n ∈ [vA, vB])
      ∧ (∀ n ∈ [vA, vB], filterRejectB podReq1 n = .ok false → n ∉ [vA])
      ∧ scheduleOneFilter ([] ++ filterRejectB :: []) podReq1 [vA, vB]
          = scheduleOneFilter [] podReq1 [vA] :=
  c6_filter_monotonic [] filterRejectB [] podReq1 [vA, vB] [vA, vB] [vA] rfl rfl

/-- C7: a filter plugin error aborts the attempt with exactly that error.
The inner loop stops at the first erroring node (its calls are the preceding
nodes plus that node); the outer loop's result and call trace are independent
of the filters after the erroring one; and `scheduleOne` returns the error,
performing no scorer call and no bind (kubesim.go:174-177, 151-153). -/
theorem c7_filter_error_aborts :
    (∀ (f : Filter) (pod : Pod) (m1 : List V1Node) (n : V1Node) (m2 : List V1Node)
        (e : SimError),
        (∀ x ∈ m1, ∃ b, f pod x = .ok b) → f pod n = .error e →
        filterOnce f pod (m1 ++ n :: m2) = .error e
          ∧ filterOnceCalls f pod (m1 ++ n :: m2) = m1 ++ [n])
    ∧ (∀ (fs1 : List Filter) (f : Filter) (fs2 : List Filter) (pod : Pod)
        (nodes m : List V1Node) (e : SimError),
        scheduleOneFilter fs1 pod nodes = .ok m → filterOnce f pod m = .error e →
        scheduleOneFilter (fs1 ++ f :: fs2) pod nodes = .error e
          ∧ scheduleOneFilterCalls (fs1 ++ f :: fs2) 0 pod nodes
              = scheduleOneFilterCalls fs1 0 pod nodes
                  ++ (filterOnceCalls f pod m).map (fun x => (fs1.length, x)))
    ∧ (∀ (k : KubeSim) (clk : Clock) (nodes : List V1Node) (pod : Pod) (rest : List Pod)
        (e : SimError),
        popQueue k.pods = some (pod, rest) →
        scheduleOneFilter k.filters pod nodes = .error e →
        scheduleOne k clk nodes = .error e
          ∧ ∀ c ∈ scheduleOneCalls k clk nodes,
              (∀ i, c ≠ PluginCall.scorerC i) ∧ (∀ s, c ≠ PluginCall.bindC s)) := by
  refine ⟨filterOnce_error_at, ?_, ?_⟩
  · intro fs1 f fs2 pod nodes m e h1 h2
    constructor
    · rw [scheduleOneFilter_append_ok fs1 (f :: fs2) pod nodes m h1]
      simp only [scheduleOneFilter, h2]
    · rw [scheduleOneFilterCalls_append_ok fs1 (f :: fs2) 0 pod nodes m h1]
      simp only [scheduleOneFilterCalls, h2]
      simp
  · intro k clk nodes pod rest e hq hf
    refine ⟨scheduleOne_filter_error k clk nodes pod rest e hq hf, ?_⟩
    unfold scheduleOneCalls
    rw [hq]
    simp only
    rw [hf]
    simp only
    intro c hc
    obtain ⟨x, _hx, hxe⟩ := List.mem_map.mp hc
    constructor
    · intro i
      rw [← hxe]
      simp
    · intro s
      rw [← hxe]
      simp

def filterBoomB : Filter :=
  fun _ n => if n.name == "b" then .error (.pluginErr ("boom")) else .ok true

def simC7 : KubeSim :=
  { nodes := [nodeA, nodeB], pods := [podReq1], submitters := [],
    filters := [filterBoomB], scorers := [scorerPreferB] }

/-- C7 witness: the abort theorem applied to a filter that errors on node `b`. -/
theorem c7_abort_witness :
    scheduleOne simC7 0 [vA, vB] = .error (.pluginErr ("boom"))
      ∧ ∀ c ∈ scheduleOneCalls simC7 0 [vA, vB],
          (∀ i, c ≠ PluginCall.scorerC i) ∧ (∀ s, c ≠ PluginCall.bindC s) :=
  c7_filter_error_aborts.2.2 simC7 0 [vA, vB] podReq1 [] (.pluginErr ("boom")) rfl rfl

/-- C8: a tick whose queue is empty at scheduling time is a no-op for the
scheduler: `scheduleOne` returns the state unchanged with no error
(kubesim.go:144-147), performs no filter, scorer or bind call, and the loop
proceeds to the next tick. -/
theorem c8_empty_queue_noop :
    (∀ (k : KubeSim) (clk : Clock) (nodes : List V1Node), k.pods = [] →
        scheduleOne k clk nodes = .ok k ∧ scheduleOneCalls k clk nodes = [])
    ∧ (∀ (k k' : KubeSim) (c : Clock) (cs : List Clock),
        runTick k c = .ok k' → runTicks k (c :: cs) = runTicks k' cs) := by
  constructor
  · intro k clk nodes hp
    constructor
    · unfold scheduleOne
      rw [hp]
      rfl
    · unfold scheduleOneCalls
      rw [hp]
      rfl
  · exact runTicks_ok_step

def simEmptyQ : KubeSim :=
  { nodes := [nodeA], pods := [], submitters := [],
    filters := [filterRejectB], scorers := [scorerPreferB] }

/-- C8 witness: the no-op theorem applied to a simulator with an empty queue
but non-trivial registered plugins. -/
theorem c8_noop_witness :
    scheduleOne simEmptyQ 0 [vA] = .ok simEmptyQ
      ∧ scheduleOneCalls simEmptyQ 0 [vA] = [] :=
  c8_empty_queue_noop.1 simEmptyQ 0 [vA] rfl

/-- C9: on every tick each submitter is invoked once in registration order
and its pods are appended in order (kubesim.go:126-139); the first submitter
error stops the loop after invoking exactly the submitters up to and
including the failing one, keeps the pods of the earlier successful
submitters in the queue, and terminates the run (kubesim.go:114-116). -/
theorem c9_submitters_in_order :
    (∀ (subs : List Submitter) (outs : List (List Pod)) (clk : Clock) (nodes : List V1Node),
        List.Forall₂ (fun s out => s clk nodes = .ok out) subs outs →
        ∀ q, submit subs clk nodes q = (q ++ outs.flatten, none)
          ∧ submitCount subs clk nodes = subs.length)
    ∧ (∀ (ss1 : List Submitter) (s : Submitter) (ss2 : List Submitter)
        (outs : List (List Pod)) (clk : Clock) (nodes : List V1Node) (e : SimError),
        List.Forall₂ (fun s2 out => s2 clk nodes = .ok out) ss1 outs →
        s clk nodes = .error e →
        ∀ q, submit (ss1 ++ s :: ss2) clk nodes q = (q ++ outs.flatten, some e)
          ∧ submitCount (ss1 ++ s :: ss2) clk nodes = ss1.length + 1)
    ∧ (∀ (k : KubeSim) (clk : Clock) (q : List Pod) (e : SimError),
        submit k.submitters clk (k.nodes.map toV1) k.pods = (q, some e) →
        runTick k clk = .error e)
    ∧ (∀ (k : KubeSim) (c : Clock) (cs : List Clock) (e : SimError),
        runTick k c = .error e → runTicks k (c :: cs) = .error e) :=
  ⟨submit_all_ok, submit_first_error, runTick_submit_error, runTicks_error_step⟩

def subPod : Submitter := fun _ _ => .ok [podReq1]

def subBoom : Submitter := fun _ _ => .error (.pluginErr ("sub"))

/-- C9 witness: one successful submitter followed by an erroring one — both
invoked, the first one's pod kept in the queue, the error returned. -/
theorem c9_submit_witness :
    submit [subPod, subBoom] 0 [vA] [] = ([podReq1], some (.pluginErr ("sub")))
      ∧ submitCount [subPod, subBoom] 0 [vA] = 2 := by
  have h := c9_submitters_in_order.2.1 [subPod] subBoom [] [[podReq1]] 0 [vA]
    (.pluginErr ("sub")) (List.Forall₂.cons rfl List.Forall₂.nil) rfl []
  exact h

/-- C10: with no scorer, no scored node, or all accumulated totals at most
-1, the selection loop keeps its initial state `("", -1)` (kubesim.go:208),
the registry lookup of `""` fails and `scheduleOneScore` returns the
`NotFound ""` error, which `scheduleOne` propagates and `Run` treats as
fatal; conversely a selected node's accumulated total is at least 0. -/
theorem c10_negative_totals_not_selectable :
    (∀ (k : KubeSim) (pod : Pod) (nodes : List V1Node) (m : List (String × Int)),
        runScorers k.scorers pod nodes [] = .ok m →
        (∀ e ∈ m, e.2 ≤ -1) →
        (∀ n ∈ k.nodes, n.name ≠ "") →
        scheduleOneScore k pod nodes = .error (.notFound ("")))
    ∧ (∀ (k : KubeSim) (pod : Pod) (nodes : List V1Node) (nd : NodeState) (pod' : Pod),
        (∀ n ∈ k.nodes, n.name ≠ "") →
        scheduleOneScore k pod nodes = .ok (nd, pod') →
        ∃ m, runScorers k.scorers pod nodes [] = .ok m
          ∧ ∃ e ∈ m, e.1 = nd.name ∧ 0 ≤ e.2)
    ∧ (∀ (k : KubeSim) (clk : Clock) (nodes : List V1Node) (pod : Pod) (rest : List Pod)
        (fr : List V1Node) (e : SimError),
        popQueue k.pods = some (pod, rest) →
        scheduleOneFilter k.filters pod nodes = .ok fr →
        scheduleOneScore k pod nodes = .error e →
        scheduleOne k clk nodes = .error e) := by
  refine ⟨?_, ?_, scheduleOne_score_error⟩
  · intro k pod nodes m hrun hle hname
    have hsel : selectMax m = ("", -1) := foldl_selStep_stay m ("", -1) hle
    have hfn : findNode k.nodes (selectMax m).1 = none := by
      rw [hsel]
      exact findNode_none k.nodes ("") hname
    rw [scheduleOneScore_eq k pod nodes m hrun, hfn, hsel]
  · intro k pod nodes nd pod2 hname hok
    unfold scheduleOneScore at hok
    cases hrun : runScorers k.scorers pod nodes [] with
    | error e => rw [hrun] at hok; cases hok
    | ok m =>
      rw [hrun] at hok
      simp only at hok
      cases hfind : findNode k.nodes (selectMax m).1 with
      | none => rw [hfind] at hok; cases hok
      | some n2 =>
        rw [hfind] at hok
        cases hok
        obtain ⟨hndmem, hndname⟩ := findNode_some k.nodes (selectMax m).1 nd hfind
        rcases foldl_selStep_spec m ("", -1) (selectMax m) rfl with hinit | hmem
        · exfalso
          apply hname nd hndmem
          rw [hndname, hinit]
        · refine ⟨m, rfl, selectMax m, hmem.1, hndname.symm, ?_⟩
          have hlt : (-1 : Int) < (selectMax m).2 := hmem.2
          omega

def simC10 : KubeSim :=
  { nodes := [nodeA], pods := [], submitters := [], filters := [], scorers := [scorerNegA] }

/-- C10 witness: the theorem applied to a scorer producing only the total -2
for node `a`. -/
theorem c10_notfound_witness :
    scheduleOneScore simC10 podReq1 [vA] = .error (.notFound ("")) :=
  c10_negative_totals_not_selectable.1 simC10 podReq1 [vA] [("a", -2)] (by rfl)
    (by decide) (by decide)

end KubeSimModel
